import Mathlib

/-
Verification of the indexed component view of the ECS sample
(src/metaprogramming-sample.hpp).

The sampled source is the template member
ComponentView<ID_T, COMPS...>::operator[](size_t i), which assembles a
ComponentSet from, per requested kind, the internal index stored at view
position i.  The surrounding framework (StripConstPtr, MaybeDeref, the
World, registry and arrays) appears in the sample only through its call
sites and the accompanying comments; those collaborators are modelled
from the specification, each marked so in its doc comment.

Entity identifiers, kind tags, internal indices and component values are
all embedded as natural numbers; the C++ type grammar of a requested
kind (bare T, const T, T*, const T*) is embedded as a bare kind tag plus
the two qualifier flags the framework gives special meaning.  Unchecked
container reads and null dereference are embedded as an explicit
undefined-behavior error in an Except monad, and the member function is
embedded in state-passing style (view and world in, view and world out)
so that frame properties are statable.
-/

/-- Error conditions of the embedded semantics.  indexOutOfRange is the
condition named by the error taxonomy of the specification;
undefinedBehavior marks an execution the C++ source leaves undefined (an
unchecked container read past the end, or converting a null component
handle to an lvalue reference). -/
inductive Err where
  | indexOutOfRange
  | undefinedBehavior
deriving DecidableEq

/-- Embedded unchecked C++ subscript on a container: an in-range read
yields the element, an out-of-range read is undefined behavior. -/
def vecGet (l : List α) (n : Nat) : Except Err α :=
  if h : n < l.length then .ok (l.get ⟨n, h⟩) else .error .undefinedBehavior

/-- A requested component type in the COMPS parameter pack: a bare kind
tag together with the two qualifiers the framework treats specially.  A
pointer-qualified request marks the component optional; const marks it
read-only.  Neither qualifier changes which kind is meant. -/
structure ReqComp where
  base : Nat
  isConst : Bool
  isPtr : Bool
deriving DecidableEq

/-- Modelled from the spec: StripConstPtr (defined outside the sampled
source) strips the const and pointer qualifiers from a requested type,
leaving the bare kind that keys component storage. -/
def StripConstPtr (c : ReqComp) : Nat := c.base

/-- The is_pointer_v trait on a requested type: whether the request is
pointer-qualified, i.e. whether the component was requested as optional. -/
def is_pointer_v (c : ReqComp) : Bool := c.isPtr

/-- Modelled from the spec: a ComponentArray is a dense store for one
component kind; get_by_index returns a handle to the stored value (some)
or a null-equivalent handle (none) and does not allocate. -/
structure ComponentArray where
  get_by_index : Nat → Option Nat

/-- Modelled from the spec: the registry resolves a bare component kind
to its single canonical ComponentArray. -/
structure ComponentRegistry where
  get_array : Nat → ComponentArray

/-- Modelled from the spec: the World aggregates the registry and
resolves an internal array index of a given kind back to the owning
entity identifier (comp_get_entity kind innerIndex). -/
structure World where
  compReg_ : ComponentRegistry
  comp_get_entity : Nat → Nat → Nat

/-- One slot of a ComponentSet: a mandatory request yields the component
value itself (the handle dereferenced to an lvalue), an optional request
keeps the nullable handle. -/
inductive CompField where
  | val (v : Nat)
  | opt (h : Option Nat)
deriving DecidableEq

/-- Whether a ComponentSet slot uses the nullable (optional)
representation. -/
def CompField.isOptionalRepr : CompField → Bool
  | .val _ => false
  | .opt _ => true

/-- Modelled from the spec and the source comments: MaybeDeref keyed by
the is_pointer_v trait of the requested type.  When the request is
pointer-qualified the handle is kept as a nullable pointer; otherwise it
is converted to an lvalue reference, which is undefined behavior on a
null handle. -/
def MaybeDeref.deref (isPointer : Bool) (h : Option Nat) : Except Err CompField :=
  if isPointer then .ok (.opt h)
  else
    match h with
    | some v => .ok (.val v)
    | none => .error .undefinedBehavior

/-- The per-access result: the owning entity identifier plus one field
per requested kind, in request order. -/
structure ComponentSet where
  id : Nat
  comps : List CompField
deriving DecidableEq

/-- The view: the requested kinds (the COMPS pack, in request order)
and, for each, its precomputed sequence of internal indices (the member
ind_, one row per requested kind, aligned by position). -/
structure ComponentView where
  comps : List ReqComp
  ind_ : List (List Nat)
deriving DecidableEq

/-- Modelled from the spec: size() is the common length of the per-kind
index sequences. -/
def ComponentView.size (v : ComponentView) : Nat := (v.ind_.headD []).length

/-- Well-formedness the producing collaborator guarantees at view
construction: at least one requested kind, one index row per requested
kind, and all rows of the common length size(). -/
def ComponentView.wf (v : ComponentView) : Prop :=
  v.comps ≠ [] ∧ v.ind_.length = v.comps.length ∧ ∀ s ∈ v.ind_, s.length = v.size

instance (v : ComponentView) : Decidable v.wf := by
  unfold ComponentView.wf; infer_instance

/-- One recorded array access: the bare kind whose canonical array was
consulted and the internal index passed to get_by_index. -/
abbrev Fetch := Nat × Nat

/-- The parameter-pack expansion inside the ComponentSet brace
initializer, element by element from left to right; the post-increment
counter j of the source is the explicit first argument.  For the j-th
requested kind the source reads ind_[j][i], fetches the handle from the
canonical array of the stripped kind, and passes it through MaybeDeref.
The fields are produced in request order; each get_by_index call is
recorded in the returned fetch trace. -/
def expandComps (v : ComponentView) (w : World) (i : Nat) :
    Nat → List ReqComp → Except Err (List CompField × List Fetch)
  | _, [] => .ok ([], [])
  | j, c :: cs => do
    let row ← vecGet v.ind_ j
    let n ← vecGet row i
    let h := (w.compReg_.get_array (StripConstPtr c)).get_by_index n
    let f ← MaybeDeref.deref (is_pointer_v c) h
    let (fs, log) ← expandComps v w i (j + 1) cs
    .ok (f :: fs, (StripConstPtr c, n) :: log)

/-- The embedded ComponentView::operator[](size_t i).  Evaluation
follows the brace initializer left to right: the entity identifier is
resolved first, through comp_get_entity on the stripped first requested
kind at the stored index ind_[0][i], then the pack expansion fetches
every requested kind.  The source performs no bounds check on i.  The
member function writes no member, so the view and the world are returned
unchanged next to the result; an empty pack, which C++ rejects at
instantiation, is embedded as undefined behavior. -/
def ComponentView.indexOp (v : ComponentView) (w : World) (i : Nat) :
    Except Err ((ComponentSet × List Fetch) × ComponentView × World) := do
  let firstComponentType ←
    match v.comps.head? with
    | some c => Except.ok (StripConstPtr c)
    | none => Except.error Err.undefinedBehavior
  let row0 ← vecGet v.ind_ 0
  let n0 ← vecGet row0 i
  let eid := w.comp_get_entity firstComponentType n0
  let (fs, log) ← expandComps v w i 0 v.comps
  .ok (⟨⟨eid, fs⟩, log⟩, v, w)

/-- Concrete Position array for the scenario of spec section 8 item 7:
values present at internal indices 2 and 5. -/
def posArray : ComponentArray := ⟨fun n => if n = 2 then some 102 else if n = 5 then some 105 else none⟩

/-- Concrete Velocity array for the scenario: a value present at
internal index 7 and absent elsewhere (in particular at 9). -/
def velArray : ComponentArray := ⟨fun n => if n = 7 then some 207 else none⟩

/-- Concrete world: kind 0 (Position) resolves to posArray, kind 1
(Velocity) to velArray; identifier resolution for Position maps internal
index 2 to entity 1 and index 5 to entity 2. -/
def demoWorld : World :=
  ⟨⟨fun k => if k = 0 then posArray else velArray⟩,
   fun k n => if k = 0 then (if n = 2 then 1 else 2) else 99⟩

/-- Concrete view over Position (mandatory) and Velocity (optional) with
index rows [2, 5] and [7, 9]. -/
def demoView : ComponentView :=
  ⟨[⟨0, false, false⟩, ⟨1, false, true⟩], [[2, 5], [7, 9]]⟩

/-- The scenario view is well formed. -/
theorem demoView_wf : demoView.wf := by decide

/-- Evaluation of the scenario at position 0: entity 1 with its present
Position value and present Velocity handle. -/
theorem demoView_access_zero : demoView.indexOp demoWorld 0 =
    .ok (⟨⟨1, [.val 102, .opt (some 207)]⟩, [(0, 2), (1, 7)]⟩, demoView, demoWorld) := rfl

/-- Evaluation of the scenario at position 1: entity 2 with its present
Position value and an absent Velocity handle. -/
theorem demoView_access_one : demoView.indexOp demoWorld 1 =
    .ok (⟨⟨2, [.val 105, .opt none]⟩, [(0, 5), (1, 9)]⟩, demoView, demoWorld) := rfl

/-- Evaluation of the scenario at position 2 = size(): the unchecked
read is undefined behavior. -/
theorem demoView_access_two : demoView.indexOp demoWorld 2 = .error .undefinedBehavior := rfl

/-- Inversion of a successful bind in the Except monad. -/
theorem exceptBind_eq_ok {α β : Type} {e : Except Err α} {f : α → Except Err β} {b : β}
    (h : e >>= f = .ok b) : ∃ a, e = .ok a ∧ f a = .ok b := by
  cases e with
  | error err => exact absurd h (by simp [Bind.bind, Except.bind])
  | ok a => exact ⟨a, rfl, by simpa [Bind.bind, Except.bind] using h⟩

/-- A successful vecGet is exactly an in-range optional lookup. -/
theorem vecGet_ok_iff {α : Type} {l : List α} {n : Nat} {a : α} :
    vecGet l n = .ok a ↔ l[n]? = some a := by
  unfold vecGet
  split
  · rename_i h
    simp [List.getElem?_eq_getElem h, List.get_eq_getElem]
  · rename_i h
    simp [List.getElem?_eq_none (Nat.le_of_not_lt h)]

/-- An out-of-range vecGet is the undefined-behavior error. -/
theorem vecGet_err {α : Type} {l : List α} {n : Nat} (h : l.length ≤ n) :
    vecGet l n = (.error .undefinedBehavior : Except Err α) := by
  unfold vecGet
  rw [dif_neg (Nat.not_lt.mpr h)]

/-- Characterization of a successful pack expansion starting at counter
j: it produces one field and one fetch per requested kind, and the k-th
field is obtained by MaybeDeref from the handle the canonical array of
the k-th kind returns at the stored index ind_[j + k][i], which the
trace records. -/
theorem expandComps_ok_char {v : ComponentView} {w : World} {i : Nat}
    {cs : List ReqComp} :
    ∀ {j : Nat} {fs : List CompField} {log : List Fetch},
      expandComps v w i j cs = .ok (fs, log) →
      fs.length = cs.length ∧ log.length = cs.length ∧
      ∀ k c, cs[k]? = some c →
        ∃ row n,
          v.ind_[j + k]? = some row ∧ row[i]? = some n ∧
          log[k]? = some (StripConstPtr c, n) ∧
          ∃ f, fs[k]? = some f ∧
            MaybeDeref.deref (is_pointer_v c)
              ((w.compReg_.get_array (StripConstPtr c)).get_by_index n) = .ok f := by
  induction cs with
  | nil =>
    intro j fs log h
    simp only [expandComps] at h
    obtain ⟨hfs, hlog⟩ := Prod.mk.injEq .. ▸ (Except.ok.inj h)
    subst hfs; subst hlog
    refine ⟨rfl, rfl, ?_⟩
    intro k c hk
    simp at hk
  | cons c0 cs ih =>
    intro j fs log h
    simp only [expandComps] at h
    obtain ⟨row, hrow, h⟩ := exceptBind_eq_ok h
    obtain ⟨n, hn, h⟩ := exceptBind_eq_ok h
    obtain ⟨f0, hf0, h⟩ := exceptBind_eq_ok h
    obtain ⟨⟨fs1, log1⟩, hrec, h⟩ := exceptBind_eq_ok h
    obtain ⟨hfs, hlog⟩ := Prod.mk.injEq .. ▸ (Except.ok.inj h)
    subst hfs; subst hlog
    obtain ⟨hlen1, hlen2, hchar⟩ := ih hrec
    refine ⟨by simp [hlen1], by simp [hlen2], ?_⟩
    intro k c hk
    cases k with
    | zero =>
      obtain rfl : c0 = c := by simpa using hk
      exact ⟨row, n, by simpa using vecGet_ok_iff.mp hrow,
        vecGet_ok_iff.mp hn, by simp, f0, by simp, hf0⟩
    | succ k =>
      obtain ⟨row, n, hr, hni, hl, f, hf, hd⟩ := hchar k c (by simpa using hk)
      have hjk : j + 1 + k = j + (k + 1) := by omega
      exact ⟨row, n, by rw [← hjk]; exact hr, hni, by simpa using hl, f,
        by simpa using hf, hd⟩

/-- Characterization of a successful indexed access: the view and the
world come back unchanged, the identifier is the resolution of the first
requested kind at the stored index ind_[0][i], and the fields and the
fetch trace are exactly those of the pack expansion started at j = 0. -/
theorem indexOp_ok_char {v : ComponentView} {w : World} {i : Nat}
    {s : ComponentSet} {log : List Fetch} {v' : ComponentView} {w' : World}
    (h : v.indexOp w i = .ok ((s, log), v', w')) :
    v' = v ∧ w' = w ∧
    ∃ c0 row0 n0,
      v.comps.head? = some c0 ∧ v.ind_[0]? = some row0 ∧ row0[i]? = some n0 ∧
      s.id = w.comp_get_entity (StripConstPtr c0) n0 ∧
      expandComps v w i 0 v.comps = .ok (s.comps, log) := by
  unfold ComponentView.indexOp at h
  cases hc : v.comps.head? with
  | none =>
    rw [hc] at h
    exact absurd h (by simp [Bind.bind, Except.bind])
  | some c0 =>
    rw [hc] at h
    obtain ⟨t0, ht0, h⟩ := exceptBind_eq_ok h
    obtain rfl : StripConstPtr c0 = t0 := Except.ok.inj ht0
    obtain ⟨row0, hrow0, h⟩ := exceptBind_eq_ok h
    obtain ⟨n0, hn0, h⟩ := exceptBind_eq_ok h
    obtain ⟨⟨fs, flog⟩, hexp, h⟩ := exceptBind_eq_ok h
    have h2 := Except.ok.inj h
    obtain ⟨⟨hs, hlog⟩, hv, hw⟩ :
        ((⟨w.comp_get_entity (StripConstPtr c0) n0, fs⟩ : ComponentSet) = s ∧
          flog = log) ∧ v = v' ∧ w = w' := by
      constructor
      · constructor
        · exact congrArg (fun p => p.1.1) h2
        · exact congrArg (fun p => p.1.2) h2
      · exact ⟨congrArg (fun p => p.2.1) h2, congrArg (fun p => p.2.2) h2⟩
    subst hs; subst hlog; subst hv; subst hw
    exact ⟨rfl, rfl, c0, row0, n0, rfl, vecGet_ok_iff.mp hrow0,
      vecGet_ok_iff.mp hn0, rfl, hexp⟩

/-- On a well-formed view an access at or past size() reads the first
index row past its end: an unchecked read, undefined behavior. -/
theorem indexOp_oob {v : ComponentView} {w : World} {i : Nat}
    (hwf : v.wf) (hi : v.size ≤ i) :
    v.indexOp w i = .error .undefinedBehavior := by
  obtain ⟨hne, hlen, hrows⟩ := hwf
  unfold ComponentView.indexOp
  cases hcs : v.comps with
  | nil => exact absurd hcs hne
  | cons c0 rest =>
    cases hind : v.ind_ with
    | nil => rw [hcs, hind] at hlen; simp at hlen
    | cons row0 t =>
      have hrow0 : vecGet (row0 :: t) 0 = .ok row0 := by simp [vecGet]
      have hsz : row0.length = v.size := hrows row0 (by rw [hind]; exact List.mem_cons_self ..)
      have hrowi : vecGet row0 i = (.error .undefinedBehavior : Except Err Nat) :=
        vecGet_err (hsz ▸ hi)
      simp [Bind.bind, Except.bind, List.head?_cons, hrow0, hrowi]

/-- The pack expansion succeeds whenever every row it will read is long
enough at position i and every mandatory kind finds a present handle at
its stored index: no step of the expansion is undefined behavior. -/
theorem expandComps_total {v : ComponentView} {w : World} {i : Nat}
    {cs : List ReqComp} :
    ∀ {j : Nat},
      (∀ k, k < cs.length → ∃ row, v.ind_[j + k]? = some row ∧ i < row.length) →
      (∀ k c row n, cs[k]? = some c → is_pointer_v c = false →
          v.ind_[j + k]? = some row → row[i]? = some n →
          ((w.compReg_.get_array (StripConstPtr c)).get_by_index n).isSome = true) →
      ∃ fs log, expandComps v w i j cs = .ok (fs, log) := by
  induction cs with
  | nil =>
    intro j _ _
    exact ⟨[], [], rfl⟩
  | cons c0 cs ih =>
    intro j hrows hpres
    obtain ⟨row, hrow, hilen⟩ := hrows 0 (by simp)
    rw [Nat.add_zero] at hrow
    have hrowget : vecGet v.ind_ j = .ok row := vecGet_ok_iff.mpr hrow
    have hni : row[i]? = some row[i] := List.getElem?_eq_getElem hilen
    have hnget : vecGet row i = .ok row[i] := vecGet_ok_iff.mpr hni
    have hderef : ∃ f, MaybeDeref.deref (is_pointer_v c0)
        ((w.compReg_.get_array (StripConstPtr c0)).get_by_index row[i]) = .ok f := by
      cases hp : is_pointer_v c0 with
      | true =>
        exact ⟨.opt ((w.compReg_.get_array (StripConstPtr c0)).get_by_index row[i]),
          by simp [MaybeDeref.deref]⟩
      | false =>
        have := hpres 0 c0 row row[i] (by simp) hp (by rw [Nat.add_zero]; exact hrow) hni
        obtain ⟨val, hval⟩ := Option.isSome_iff_exists.mp this
        exact ⟨.val val, by simp [MaybeDeref.deref, hval]⟩
    obtain ⟨f, hf⟩ := hderef
    obtain ⟨fs, log, hrec⟩ := ih (j := j + 1)
      (fun k hk => by
        obtain ⟨row, hr, hl⟩ := hrows (k + 1) (Nat.succ_lt_succ hk)
        exact ⟨row, by rw [show j + 1 + k = j + (k + 1) from by omega]; exact hr, hl⟩)
      (fun k c row n hc hm hr hn => by
        refine hpres (k + 1) c row n (by simpa using hc) hm ?_ hn
        rw [show j + (k + 1) = j + 1 + k from by omega]; exact hr)
    exact ⟨f :: fs, (StripConstPtr c0, row[i]) :: log,
      by simp [expandComps, Bind.bind, Except.bind, hrowget, hnget, hf, hrec]⟩

/-- The representation a successful MaybeDeref produces is decided by
its Boolean key alone. -/
theorem deref_repr {b : Bool} {h : Option Nat} {f : CompField}
    (hd : MaybeDeref.deref b h = .ok f) : f.isOptionalRepr = b := by
  cases b with
  | true =>
    simp only [MaybeDeref.deref, if_true] at hd
    obtain rfl := Except.ok.inj hd
    rfl
  | false =>
    cases h with
    | some val =>
      simp only [MaybeDeref.deref, if_false] at hd
      obtain rfl := Except.ok.inj hd
      rfl
    | none => exact absurd hd (by simp [MaybeDeref.deref])

/-- A pointer-qualified request keeps the handle unchanged. -/
theorem deref_true {h : Option Nat} {f : CompField}
    (hd : MaybeDeref.deref true h = .ok f) : f = .opt h := by
  simp only [MaybeDeref.deref, if_true] at hd
  exact (Except.ok.inj hd).symm

/-- A successful mandatory dereference means the handle was present and
the field carries exactly the stored value. -/
theorem deref_false {h : Option Nat} {f : CompField}
    (hd : MaybeDeref.deref false h = .ok f) : ∃ val, h = some val ∧ f = .val val := by
  cases h with
  | some val =>
    have h2 : (Except.ok (.val val) : Except Err CompField) = .ok f := hd
    exact ⟨val, rfl, (Except.ok.inj h2).symm⟩
  | none => exact absurd hd (by simp [MaybeDeref.deref])

/-- C1: whenever an access view[i] returns a ComponentSet, its entity
identifier equals the identifier resolution by the World of the first
requested kind (qualifier-stripped) at the internal index stored at
position i of the first index row, i.e. ind_[0][i]. -/
theorem C1_first_kind_determines_id (v : ComponentView) (w : World) (i : Nat)
    (s : ComponentSet) (log : List Fetch) (v' : ComponentView) (w' : World)
    (_hwf : v.wf) (_hi : i < v.size)
    (hok : v.indexOp w i = .ok ((s, log), v', w')) :
    ∃ c0 row0 n0,
      v.comps.head? = some c0 ∧ v.ind_[0]? = some row0 ∧ row0[i]? = some n0 ∧
      s.id = w.comp_get_entity (StripConstPtr c0) n0 := by
  obtain ⟨-, -, c0, row0, n0, h1, h2, h3, h4, -⟩ := indexOp_ok_char hok
  exact ⟨c0, row0, n0, h1, h2, h3, h4⟩

/-- C1 witness: the concrete scenario view at position 0. -/
theorem C1_first_kind_determines_id_witness :
    ∃ c0 row0 n0,
      demoView.comps.head? = some c0 ∧ demoView.ind_[0]? = some row0 ∧
      row0[0]? = some n0 ∧
      (⟨1, [.val 102, .opt (some 207)]⟩ : ComponentSet).id =
        demoWorld.comp_get_entity (StripConstPtr c0) n0 :=
  C1_first_kind_determines_id demoView demoWorld 0
    ⟨1, [.val 102, .opt (some 207)]⟩ [(0, 2), (1, 7)] demoView demoWorld
    (by decide) (by decide) rfl

/-- C2 counterexample: on the concrete scenario view of size 2, the
access at index 2 = size() does not fail with the IndexOutOfRange
condition the claim demands: the source performs no bounds check, so the
access is an unchecked read, i.e. undefined behavior. -/
theorem C2_no_index_out_of_range_counterexample :
    demoView.indexOp demoWorld 2 = .error .undefinedBehavior ∧
    demoView.indexOp demoWorld 2 ≠ .error .indexOutOfRange := by
  refine ⟨rfl, fun h => ?_⟩
  rw [show demoView.indexOp demoWorld 2 = .error .undefinedBehavior from rfl] at h
  exact absurd (Except.error.inj h) (by decide)

/-- C2 amended: operator[] performs no bounds check; on a well-formed
view every access at or past size() (including any access on an empty
view) reads an index row past its end, which is undefined behavior — in
particular it never clamps and never returns a ComponentSet, but it does
not raise a dedicated IndexOutOfRange condition either. -/
theorem C2_out_of_range_is_unchecked (v : ComponentView) (w : World) (i : Nat)
    (hwf : v.wf) (hi : v.size ≤ i) :
    v.indexOp w i = .error .undefinedBehavior :=
  indexOp_oob hwf hi

/-- C2 witness: the amended statement at the concrete scenario view and
index 2 = size(). -/
theorem C2_out_of_range_is_unchecked_witness :
    demoView.indexOp demoWorld 2 = .error .undefinedBehavior :=
  C2_out_of_range_is_unchecked demoView demoWorld 2 (by decide) (by decide)

/-- C3: the representation of every field of a returned ComponentSet is
decided by the optionality qualifier of its request alone: the set has
one field per requested kind and the k-th field uses the nullable
representation exactly when the k-th kind was pointer-qualified, with no
dependence on the fetched data. -/
theorem C3_optionality_decided_by_declaration (v : ComponentView) (w : World)
    (i : Nat) (s : ComponentSet) (log : List Fetch) (v' : ComponentView)
    (w' : World) (hok : v.indexOp w i = .ok ((s, log), v', w')) :
    s.comps.length = v.comps.length ∧
    ∀ (k : Nat) (c : ReqComp) (f : CompField),
      v.comps[k]? = some c → s.comps[k]? = some f →
      f.isOptionalRepr = is_pointer_v c := by
  obtain ⟨-, -, -, -, -, -, -, -, -, hexp⟩ := indexOp_ok_char hok
  obtain ⟨hlen, -, hchar⟩ := expandComps_ok_char hexp
  refine ⟨hlen, ?_⟩
  intro k c f hc hf
  obtain ⟨row, n, -, -, -, f2, hf2, hd⟩ := hchar k c hc
  obtain rfl : f = f2 := by rw [hf] at hf2; exact Option.some.inj hf2
  exact deref_repr hd

/-- C3 witness: on the concrete scenario at position 0, field
representations match the declared qualifiers. -/
theorem C3_optionality_decided_by_declaration_witness :
    (⟨1, [.val 102, .opt (some 207)]⟩ : ComponentSet).comps.length =
      demoView.comps.length ∧
    ∀ (k : Nat) (c : ReqComp) (f : CompField),
      demoView.comps[k]? = some c →
      (⟨1, [.val 102, .opt (some 207)]⟩ : ComponentSet).comps[k]? = some f →
      f.isOptionalRepr = is_pointer_v c :=
  C3_optionality_decided_by_declaration demoView demoWorld 0
    ⟨1, [.val 102, .opt (some 207)]⟩ [(0, 2), (1, 7)] demoView demoWorld rfl

/-- C6: for an optional (pointer-qualified) kind at any position, the
returned field is exactly the handle its backing array reports at the
stored index: absence stays absence and a present handle is passed
through unchanged. -/
theorem C6_optional_fidelity (v : ComponentView) (w : World) (i : Nat)
    (s : ComponentSet) (log : List Fetch) (v' : ComponentView) (w' : World)
    (k : Nat) (c : ReqComp) (row : List Nat) (n : Nat) (f : CompField)
    (hok : v.indexOp w i = .ok ((s, log), v', w'))
    (hc : v.comps[k]? = some c) (hp : is_pointer_v c = true)
    (hrow : v.ind_[k]? = some row) (hn : row[i]? = some n)
    (hf : s.comps[k]? = some f) :
    f = .opt ((w.compReg_.get_array (StripConstPtr c)).get_by_index n) := by
  obtain ⟨-, -, -, -, -, -, -, -, -, hexp⟩ := indexOp_ok_char hok
  obtain ⟨-, -, hchar⟩ := expandComps_ok_char hexp
  obtain ⟨row2, n2, hr2, hn2, -, f2, hf2, hd⟩ := hchar k c hc
  rw [Nat.zero_add] at hr2
  obtain rfl : row = row2 := by rw [hrow] at hr2; exact Option.some.inj hr2
  obtain rfl : n = n2 := by rw [hn] at hn2; exact Option.some.inj hn2
  obtain rfl : f = f2 := by rw [hf] at hf2; exact Option.some.inj hf2
  rw [hp] at hd
  exact deref_true hd

/-- C6 witness: on the concrete scenario at position 1 the Velocity
array reports absence at stored index 9 and the returned field is the
absent handle itself. -/
theorem C6_optional_fidelity_witness :
    (CompField.opt none) =
      .opt ((demoWorld.compReg_.get_array
        (StripConstPtr ⟨1, false, true⟩)).get_by_index 9) :=
  C6_optional_fidelity demoView demoWorld 1 ⟨2, [.val 105, .opt none]⟩
    [(0, 5), (1, 9)] demoView demoWorld 1 ⟨1, false, true⟩ [7, 9] 9 (.opt none)
    rfl rfl rfl rfl rfl rfl

/-- C7: a successful access yields one field and records one array
fetch per requested kind, in request order: the k-th requested kind is
fetched from its own canonical array at the index stored at position i
of its own sequence, ind_[k][i], and the k-th field comes from exactly
that fetch through MaybeDeref. -/
theorem C7_one_fetch_per_kind_in_order (v : ComponentView) (w : World)
    (i : Nat) (s : ComponentSet) (log : List Fetch) (v' : ComponentView)
    (w' : World) (hok : v.indexOp w i = .ok ((s, log), v', w')) :
    s.comps.length = v.comps.length ∧ log.length = v.comps.length ∧
    ∀ (k : Nat) (c : ReqComp), v.comps[k]? = some c →
      ∃ row n, v.ind_[k]? = some row ∧ row[i]? = some n ∧
        log[k]? = some (StripConstPtr c, n) ∧
        ∃ f, s.comps[k]? = some f ∧
          MaybeDeref.deref (is_pointer_v c)
            ((w.compReg_.get_array (StripConstPtr c)).get_by_index n) = .ok f := by
  obtain ⟨-, -, -, -, -, -, -, -, -, hexp⟩ := indexOp_ok_char hok
  obtain ⟨h1, h2, hchar⟩ := expandComps_ok_char hexp
  refine ⟨h1, h2, ?_⟩
  intro k c hc
  obtain ⟨row, n, hr, hrest⟩ := hchar k c hc
  rw [Nat.zero_add] at hr
  exact ⟨row, n, hr, hrest⟩

/-- C7 witness: the concrete scenario at position 0 with its two
recorded fetches (0, 2) and (1, 7). -/
theorem C7_one_fetch_per_kind_in_order_witness :
    (⟨1, [.val 102, .opt (some 207)]⟩ : ComponentSet).comps.length =
      demoView.comps.length ∧
    ([(0, 2), (1, 7)] : List Fetch).length = demoView.comps.length ∧
    ∀ (k : Nat) (c : ReqComp), demoView.comps[k]? = some c →
      ∃ row n, demoView.ind_[k]? = some row ∧ row[0]? = some n ∧
        ([(0, 2), (1, 7)] : List Fetch)[k]? = some (StripConstPtr c, n) ∧
        ∃ f, (⟨1, [.val 102, .opt (some 207)]⟩ : ComponentSet).comps[k]? = some f ∧
          MaybeDeref.deref (is_pointer_v c)
            ((demoWorld.compReg_.get_array (StripConstPtr c)).get_by_index n) = .ok f :=
  C7_one_fetch_per_kind_in_order demoView demoWorld 0
    ⟨1, [.val 102, .opt (some 207)]⟩ [(0, 2), (1, 7)] demoView demoWorld rfl

/-- C8: an access is deterministic and side-effect free: whenever
view[i] returns a result, repeating the access on the state the first
call returned (which is the same state) returns the very same
ComponentSet, trace and state. -/
theorem C8_repeated_access_equal (v : ComponentView) (w : World) (i : Nat)
    (s : ComponentSet) (log : List Fetch) (v' : ComponentView) (w' : World)
    (hok : v.indexOp w i = .ok ((s, log), v', w')) :
    v'.indexOp w' i = .ok ((s, log), v', w') := by
  obtain ⟨rfl, rfl, -⟩ := indexOp_ok_char hok
  exact hok

/-- C8 witness: repeating the concrete scenario access at position 0. -/
theorem C8_repeated_access_equal_witness :
    demoView.indexOp demoWorld 0 =
      .ok ((⟨1, [.val 102, .opt (some 207)]⟩, [(0, 2), (1, 7)]), demoView, demoWorld) :=
  C8_repeated_access_equal demoView demoWorld 0
    ⟨1, [.val 102, .opt (some 207)]⟩ [(0, 2), (1, 7)] demoView demoWorld rfl

/-- C9: operator[] is a pure read: a successful access returns the
view (its index rows) and the world (registry and arrays included)
unchanged; only the transient ComponentSet and its trace are produced. -/
theorem C9_pure_read_frame (v : ComponentView) (w : World) (i : Nat)
    (s : ComponentSet) (log : List Fetch) (v' : ComponentView) (w' : World)
    (hok : v.indexOp w i = .ok ((s, log), v', w')) :
    v' = v ∧ w' = w :=
  ⟨(indexOp_ok_char hok).1, (indexOp_ok_char hok).2.1⟩

/-- C9 witness: the concrete scenario access at position 1 leaves view
and world unchanged. -/
theorem C9_pure_read_frame_witness : demoView = demoView ∧ demoWorld = demoWorld :=
  C9_pure_read_frame demoView demoWorld 1 ⟨2, [.val 105, .opt none]⟩
    [(0, 5), (1, 9)] demoView demoWorld rfl

/-- A deliberately misaligned variant of the scenario view: the
Velocity row is reversed, so positions no longer agree across kinds
(Data Model invariant 2 is violated by the producer). -/
def demoMisalignedView : ComponentView :=
  ⟨[⟨0, false, false⟩, ⟨1, false, true⟩], [[2, 5], [9, 7]]⟩

/-- C10: with no alignment assumption at all, the identifier and the
first field of a returned ComponentSet are mutually consistent, because
both are derived from the single stored index ind_[0][i]: the
identifier is its resolution through the World for the stripped first
kind and the first field is obtained through MaybeDeref from the fetch
of the first kind at that same index. -/
theorem C10_id_consistent_with_first_field (v : ComponentView) (w : World)
    (i : Nat) (s : ComponentSet) (log : List Fetch) (v' : ComponentView)
    (w' : World) (hok : v.indexOp w i = .ok ((s, log), v', w')) :
    ∃ c0 n0, v.comps[0]? = some c0 ∧
      (∃ row0, v.ind_[0]? = some row0 ∧ row0[i]? = some n0) ∧
      s.id = w.comp_get_entity (StripConstPtr c0) n0 ∧
      ∃ f0, s.comps[0]? = some f0 ∧
        MaybeDeref.deref (is_pointer_v c0)
          ((w.compReg_.get_array (StripConstPtr c0)).get_by_index n0) = .ok f0 := by
  obtain ⟨-, -, c0, row0, n0, hhead, hrow0, hn0, hid, hexp⟩ := indexOp_ok_char hok
  obtain ⟨-, -, hchar⟩ := expandComps_ok_char hexp
  have hc0 : v.comps[0]? = some c0 := by
    cases hv : v.comps with
    | nil => rw [hv] at hhead; exact absurd hhead (by simp)
    | cons a t => rw [hv] at hhead; simpa using hhead
  obtain ⟨row2, n2, hr2, hn2, -, f0, hf0, hd⟩ := hchar 0 c0 hc0
  rw [Nat.zero_add] at hr2
  obtain rfl : row0 = row2 := by rw [hrow0] at hr2; exact Option.some.inj hr2
  obtain rfl : n0 = n2 := by rw [hn0] at hn2; exact Option.some.inj hn2
  exact ⟨c0, n0, hc0, ⟨row0, hrow0, hn0⟩, hid, f0, hf0, hd⟩

/-- C10 witness: on the misaligned view at position 0 the identifier
still belongs to the Position component that is returned, both derived
from stored index 2. -/
theorem C10_id_consistent_with_first_field_witness :
    ∃ c0 n0, demoMisalignedView.comps[0]? = some c0 ∧
      (∃ row0, demoMisalignedView.ind_[0]? = some row0 ∧ row0[0]? = some n0) ∧
      (⟨1, [.val 102, .opt none]⟩ : ComponentSet).id =
        demoWorld.comp_get_entity (StripConstPtr c0) n0 ∧
      ∃ f0, (⟨1, [.val 102, .opt none]⟩ : ComponentSet).comps[0]? = some f0 ∧
        MaybeDeref.deref (is_pointer_v c0)
          ((demoWorld.compReg_.get_array (StripConstPtr c0)).get_by_index n0) = .ok f0 :=
  C10_id_consistent_with_first_field demoMisalignedView demoWorld 0
    ⟨1, [.val 102, .opt none]⟩ [(0, 2), (1, 9)] demoMisalignedView demoWorld rfl

/-- C5: under the array contract — every mandatory kind holds a present
value at the index stored for it at position i — the access at a valid
position of a well-formed view succeeds, and every mandatory field of
the result is a guaranteed-present value: the conversion never sees a
null-equivalent handle. -/
theorem C5_mandatory_presence (v : ComponentView) (w : World) (i : Nat)
    (hwf : v.wf) (hi : i < v.size)
    (hpres : ∀ k, k < v.comps.length →
      is_pointer_v (v.comps.getD k ⟨0, false, false⟩) = false →
      ((w.compReg_.get_array (StripConstPtr (v.comps.getD k ⟨0, false, false⟩))).get_by_index
        ((v.ind_.getD k []).getD i 0)).isSome = true) :
    ∃ s log, v.indexOp w i = .ok ((s, log), v, w) ∧
      ∀ (k : Nat) (c : ReqComp) (f : CompField),
        v.comps[k]? = some c → is_pointer_v c = false →
        s.comps[k]? = some f → ∃ val, f = .val val := by
  obtain ⟨hne, hlen, hrows⟩ := hwf
  have hrowk : ∀ k, k < v.comps.length →
      ∃ row, v.ind_[0 + k]? = some row ∧ i < row.length := by
    intro k hk
    rw [Nat.zero_add]
    have hk2 : k < v.ind_.length := hlen ▸ hk
    refine ⟨v.ind_[k], List.getElem?_eq_getElem hk2, ?_⟩
    rw [hrows v.ind_[k] (List.getElem_mem hk2)]
    exact hi
  have hpres2 : ∀ (k : Nat) (c : ReqComp) (row : List Nat) (n : Nat),
      v.comps[k]? = some c → is_pointer_v c = false →
      v.ind_[0 + k]? = some row → row[i]? = some n →
      ((w.compReg_.get_array (StripConstPtr c)).get_by_index n).isSome = true := by
    intro k c row n hc hm hrow hn
    rw [Nat.zero_add] at hrow
    have hk : k < v.comps.length := by
      by_contra hk
      rw [List.getElem?_eq_none (Nat.le_of_not_lt hk)] at hc
      exact Option.noConfusion hc
    have hcd : v.comps.getD k ⟨0, false, false⟩ = c := by
      rw [List.getD_eq_getElem?_getD, hc]; rfl
    have hrd : v.ind_.getD k [] = row := by
      rw [List.getD_eq_getElem?_getD, hrow]; rfl
    have hnd : row.getD i 0 = n := by
      rw [List.getD_eq_getElem?_getD, hn]; rfl
    have := hpres k hk (hcd ▸ hm)
    rw [hcd, hrd, hnd] at this
    exact this
  obtain ⟨fs, log, hexp⟩ := expandComps_total hrowk hpres2
  obtain ⟨c0, hc0⟩ : ∃ c0, v.comps.head? = some c0 := by
    cases hv : v.comps with
    | nil => exact absurd hv hne
    | cons a t => exact ⟨a, rfl⟩
  obtain ⟨row0, hrow0, hirow0⟩ := hrowk 0 (List.length_pos.mpr hne)
  rw [Nat.zero_add] at hrow0
  have hn0 : row0[i]? = some row0[i] := List.getElem?_eq_getElem hirow0
  have hgrow0 : vecGet v.ind_ 0 = .ok row0 := vecGet_ok_iff.mpr hrow0
  have hgn0 : vecGet row0 i = .ok row0[i] := vecGet_ok_iff.mpr hn0
  refine ⟨⟨w.comp_get_entity (StripConstPtr c0) row0[i], fs⟩, log, ?_, ?_⟩
  · unfold ComponentView.indexOp
    rw [hc0]
    simp [Bind.bind, Except.bind, hgrow0, hgn0, hexp]
  · intro k c f hc hm hf
    obtain ⟨-, -, hchar⟩ := expandComps_ok_char hexp
    obtain ⟨row, n, -, -, -, f2, hf2, hd⟩ := hchar k c hc
    obtain rfl : f = f2 := by rw [hf] at hf2; exact Option.some.inj hf2
    rw [hm] at hd
    obtain ⟨val, -, hval⟩ := deref_false hd
    exact ⟨val, hval⟩

/-- C5 witness: the concrete scenario at position 0, where the
mandatory Position kind is present at its stored index 2. -/
theorem C5_mandatory_presence_witness :
    ∃ s log, demoView.indexOp demoWorld 0 = .ok ((s, log), demoView, demoWorld) ∧
      ∀ (k : Nat) (c : ReqComp) (f : CompField),
        demoView.comps[k]? = some c → is_pointer_v c = false →
        s.comps[k]? = some f → ∃ val, f = .val val :=
  C5_mandatory_presence demoView demoWorld 0 (by decide) (by decide) (by decide)

/-- A qualifier variant of the scenario view with identical bare kinds
and index rows: Position requested as optional and const, Velocity as
mandatory.  Used to exhibit that qualifiers do not change storage
resolution. -/
def demoQualView : ComponentView :=
  ⟨[⟨0, true, true⟩, ⟨1, true, false⟩], [[2, 5], [7, 9]]⟩

/-- C4: storage lookup is keyed by the stripped (bare) kind only and
the optionality qualifier touches only the result representation: two
views whose requests differ arbitrarily in const and pointer qualifiers
but agree on bare kinds and index rows consult, at any position where
both succeed, the same canonical arrays at the same internal indices
(equal fetch traces) and resolve the same entity identifier. -/
theorem C4_storage_keyed_by_bare_kind (v v2 : ComponentView) (w : World)
    (i : Nat) (s s2 : ComponentSet) (log log2 : List Fetch)
    (v' v2' : ComponentView) (w' w2' : World)
    (hbase : v.comps.map ReqComp.base = v2.comps.map ReqComp.base)
    (hind : v.ind_ = v2.ind_)
    (h1 : v.indexOp w i = .ok ((s, log), v', w'))
    (h2 : v2.indexOp w i = .ok ((s2, log2), v2', w2')) :
    log = log2 ∧ s.id = s2.id := by
  obtain ⟨-, -, c0, row0, n0, hhead1, hrow01, hn01, hid1, hexp1⟩ := indexOp_ok_char h1
  obtain ⟨-, -, c02, row02, n02, hhead2, hrow02, hn02, hid2, hexp2⟩ := indexOp_ok_char h2
  obtain ⟨-, hloglen1, hchar1⟩ := expandComps_ok_char hexp1
  obtain ⟨-, hloglen2, hchar2⟩ := expandComps_ok_char hexp2
  have hclen : v.comps.length = v2.comps.length := by
    have := congrArg List.length hbase
    simpa using this
  have hbasek : ∀ (k : Nat) (c c2 : ReqComp),
      v.comps[k]? = some c → v2.comps[k]? = some c2 → c.base = c2.base := by
    intro k c c2 hc hc2
    have hm : (v.comps.map ReqComp.base)[k]? = some c.base := by
      rw [List.getElem?_map, hc]; rfl
    rw [hbase, List.getElem?_map, hc2] at hm
    exact (Option.some.inj hm).symm
  constructor
  · apply List.ext_getElem?
    intro k
    by_cases hk : k < v.comps.length
    · obtain ⟨c, hc⟩ : ∃ c, v.comps[k]? = some c :=
        ⟨v.comps[k], List.getElem?_eq_getElem hk⟩
      obtain ⟨c2, hc2⟩ : ∃ c2, v2.comps[k]? = some c2 := by
        rw [List.getElem?_eq_getElem (hclen ▸ hk)]
        exact ⟨_, rfl⟩
      obtain ⟨row, n, hr, hn, hl, -⟩ := hchar1 k c hc
      obtain ⟨row2, n2, hr2, hn2, hl2, -⟩ := hchar2 k c2 hc2
      rw [Nat.zero_add] at hr hr2
      rw [hind] at hr
      obtain rfl : row = row2 := by rw [hr2] at hr; exact (Option.some.inj hr).symm
      obtain rfl : n = n2 := by rw [hn2] at hn; exact (Option.some.inj hn).symm
      rw [hl, hl2]
      have : StripConstPtr c = StripConstPtr c2 := hbasek k c c2 hc hc2
      rw [this]
    · have hk2 : ¬ k < v2.comps.length := fun h => hk (hclen ▸ h)
      rw [List.getElem?_eq_none (by omega : log.length ≤ k),
        List.getElem?_eq_none (by omega : log2.length ≤ k)]
  · have hc0 : v.comps[0]? = some c0 := by
      cases hv : v.comps with
      | nil => rw [hv] at hhead1; exact absurd hhead1 (by simp)
      | cons a t => rw [hv] at hhead1; simpa using hhead1
    have hc02 : v2.comps[0]? = some c02 := by
      cases hv : v2.comps with
      | nil => rw [hv] at hhead2; exact absurd hhead2 (by simp)
      | cons a t => rw [hv] at hhead2; simpa using hhead2
    rw [hind] at hrow01
    obtain rfl : row0 = row02 := by rw [hrow02] at hrow01; exact (Option.some.inj hrow01).symm
    obtain rfl : n0 = n02 := by rw [hn02] at hn01; exact (Option.some.inj hn01).symm
    rw [hid1, hid2]
    have : StripConstPtr c0 = StripConstPtr c02 := hbasek 0 c0 c02 hc0 hc02
    rw [this]

/-- C4 witness: the scenario view and its qualifier variant at
position 0 consult the same arrays at the same indices and agree on the
identifier. -/
theorem C4_storage_keyed_by_bare_kind_witness :
    ([(0, 2), (1, 7)] : List Fetch) = ([(0, 2), (1, 7)] : List Fetch) ∧
    (⟨1, [.val 102, .opt (some 207)]⟩ : ComponentSet).id =
      (⟨1, [.opt (some 102), .val 207]⟩ : ComponentSet).id :=
  C4_storage_keyed_by_bare_kind demoView demoQualView demoWorld 0
    ⟨1, [.val 102, .opt (some 207)]⟩ ⟨1, [.opt (some 102), .val 207]⟩
    [(0, 2), (1, 7)] [(0, 2), (1, 7)] demoView demoQualView demoWorld demoWorld
    (by decide) (by decide) rfl rfl
